import Mathlib

/-!
# Verification of the tp-counter pagination-and-aggregation pipeline

Shallow embedding of `src/main.rs`: an S3 `list_objects_v2` pagination loop
that collects `last_modified` timestamps, followed by an interval aggregator
(sort, consecutive differences, total/average duration, and a display
decomposition of the total into hours/minutes/seconds/milliseconds).

Modelling choices:
* A `Timestamp` is an `Int`: the instant in the duration type's native
  sub-millisecond units (chrono `DateTime<Utc>` is nanosecond-resolution).
  A `Duration` (difference of timestamps) is likewise an `Int` in the same
  units.
* RFC3339 parsing (`DateTime::parse_from_rfc3339`, an external library
  call) is a parameter `parse : String → Option Int`: `none` models a parse
  error, which the source propagates with `?`.
* The external Listing Service is modelled as the finite sequence of page
  responses it hands to the loop, one per `send()` call, in order; the
  continuation token is opaque and carried but never interpreted.
* Integer division on durations (`Duration / i32`, documented as integer
  division truncating toward zero) and on `i64` millisecond values (Rust
  `/` and `%`) is `Int.tdiv` / `Int.tmod`, which truncate toward zero.
-/

namespace TpCounter

/-- One storage object of a listing response.  The source only reads the
`last_modified` field (`object.last_modified : Option<DateTime>`); all other
fields are ignored, so only this field is modelled.  The field holds the
string handed to the RFC3339 parser (`last_modified.to_string()`). -/
structure ObjectRecord where
  lastModified : Option String
deriving Repr, DecidableEq

/-- One `ListObjectsV2` response as consumed by the loop in `main`:
`resp.contents : Option<Vec<Object>>`, `resp.is_truncated : Option<bool>`,
`resp.next_continuation_token : Option<String>`. -/
structure ListingPage where
  contents : Option (List ObjectRecord)
  is_truncated : Option Bool
  next_continuation_token : Option String
deriving Repr, DecidableEq

/-- The error that aborts a run: a `last_modified` string failed to parse
(the `?` on `DateTime::parse_from_rfc3339`).  It carries the offending
string. -/
inductive RunError where
  | parseError (s : String) : RunError
deriving Repr, DecidableEq

/-- The inner `for object in contents` loop (main.rs lines 65–74): for each
object, if `last_modified` is present, parse it (a parse failure aborts via
`?`) and push the timestamp; absent `last_modified` is skipped. -/
def processObjects (parse : String → Option Int) :
    List ObjectRecord → Except RunError (List Int)
  | [] => .ok []
  | o :: rest =>
    match o.lastModified with
    | none => processObjects parse rest
    | some s =>
      match parse s with
      | none => .error (.parseError s)
      | some t =>
        match processObjects parse rest with
        | .error e => .error e
        | .ok ts => .ok (t :: ts)

/-- Lines 64–75: `if let Some(contents) = resp.contents` — a page without a
`contents` field contributes nothing. -/
def processPage (parse : String → Option Int) (p : ListingPage) :
    Except RunError (List Int) :=
  match p.contents with
  | none => .ok []
  | some objs => processObjects parse objs

/-- The pagination loop of `main` (lines 55–82) run against the sequence of
page responses the Listing Service returns.  Each iteration consumes the
next response; after processing its objects, the loop continues exactly
when `resp.is_truncated.unwrap_or(false)` holds (setting the cursor to
`resp.next_continuation_token`, which is opaque and not interpreted), and
breaks otherwise.  An empty remaining sequence means the service has no
further responses. -/
def listAll (parse : String → Option Int) :
    List ListingPage → Except RunError (List Int)
  | [] => .ok []
  | p :: rest =>
    match processPage parse p with
    | .error e => .error e
    | .ok ts =>
      if p.is_truncated.getD false then
        match listAll parse rest with
        | .error e => .error e
        | .ok ts2 => .ok (ts ++ ts2)
      else
        .ok ts

/-- Spec-side collector for one page (used to compare against `listAll` for
the completeness claims): the parseable timestamps of the objects whose
`lastModified` is present, in page order. -/
def pageTimestamps (parse : String → Option Int) (p : ListingPage) : List Int :=
  (p.contents.getD []).filterMap (fun o => o.lastModified.bind parse)

/-- Spec-side collector across pages: the concatenation (hence the multiset
union, each element contributed once) of every page's parseable
timestamps. -/
def allTimestamps (parse : String → Option Int) (pages : List ListingPage) : List Int :=
  pages.flatMap (pageTimestamps parse)

/-- Every present `lastModified` string among the records parses
successfully. -/
def objectsParse (parse : String → Option Int) (objs : List ObjectRecord) : Bool :=
  objs.all fun o =>
    match o.lastModified with
    | none => true
    | some s => (parse s).isSome

/-- Every present `lastModified` string on the page parses successfully. -/
def pageParses (parse : String → Option Int) (p : ListingPage) : Bool :=
  objectsParse parse (p.contents.getD [])

/-- Some record of the page carries a present `lastModified` string that
fails to parse. -/
def pageHasBadTimestamp (parse : String → Option Int) (p : ListingPage) : Bool :=
  (p.contents.getD []).any fun o =>
    match o.lastModified with
    | none => false
    | some s => (parse s).isNone

/-- The page is reported truncated: `resp.is_truncated.unwrap_or(false)`. -/
def pageTruncated (p : ListingPage) : Bool :=
  p.is_truncated.getD false

/-- The final page of the sequence (when there is one) is not truncated,
i.e. the Listing Service's responses end with a page on which the loop
breaks. -/
def lastNotTruncated (pages : List ListingPage) : Bool :=
  match pages.getLast? with
  | none => true
  | some p => ! pageTruncated p

/-! ## Interval aggregator (main.rs lines 84–121) -/

/-- `timestamps.sort()` (line 89): ascending sort.  The elements are plain
instants with a total order, so any correct ascending sort produces the
same list as Rust's stable driftsort. -/
def sortTimestamps (ts : List Int) : List Int :=
  List.insertionSort (· ≤ ·) ts

/-- Lines 91–97: `for window in timestamps.windows(2)` pushing
`*next - *prev` for each adjacent pair. -/
def timeDiffs (ts : List Int) : List Int :=
  List.zipWith (fun prev next => next - prev) ts ts.tail

/-- Line 99: `time_diffs.iter().fold(Duration::zero(), |acc, x| acc + *x)`. -/
def totalDuration (ds : List Int) : Int :=
  ds.foldl (· + ·) 0

/-- The result of a statistics run (spec `AggregateResult`): the average
and total in the duration's native sub-millisecond units, and the number of
intervals (`time_diffs.len()`). -/
structure AggregateResult where
  average : Int
  total : Int
  count : Nat
deriving Repr, DecidableEq

/-- The two terminal outcomes of a successful run: the insufficient-data
sentinel (`"Not enough timestamps to calculate average."` followed by
`return Ok(())`, lines 84–87), or a computed statistics result. -/
inductive Report where
  | insufficient : Report
  | stats (r : AggregateResult) : Report
deriving Repr, DecidableEq

/-- Rust `as i32` applied to a `usize` (line 101: `time_diffs.len() as i32`):
a numeric cast truncates to the low 32 bits and reinterprets them as a
two's-complement signed value — `n mod 2^32`, shifted down by `2^32` when it
reaches `2^31`. -/
def i32OfUsize (n : Nat) : Int :=
  if n % 4294967296 < 2147483648 then ((n % 4294967296 : Nat) : Int)
  else ((n % 4294967296 : Nat) : Int) - 4294967296

/-- Lines 84–113: the aggregation applied to the collected timestamps.
Fewer than two timestamps yields the sentinel; otherwise sort, take
consecutive differences, total them, and divide by the interval count cast
to `i32` (`total_duration / (time_diffs.len() as i32)`, integer duration
division truncating toward zero; the cast wraps for `2^31` or more
intervals).  The one unmodelled case is the division-by-zero panic the
program would hit when the wrapped length is exactly `0` (a length that is
a multiple of `2^32`): there `Int.tdiv _ 0 = 0` in the model; no theorem
below relies on that case.  The `count` field is the printed
`time_diffs.len()`, a `usize`, not the cast value. -/
def aggregate (ts : List Int) : Report :=
  if ts.length < 2 then
    .insufficient
  else
    let sorted := sortTimestamps ts
    let diffs := timeDiffs sorted
    let total := totalDuration diffs
    let avg := total.tdiv (i32OfUsize diffs.length)
    .stats ⟨avg, total, diffs.length⟩

/-- `total_duration.num_milliseconds()` (line 102): the whole-millisecond
value of a duration held in nanoseconds, truncated toward zero. -/
def numMilliseconds (total : Int) : Int :=
  total.tdiv 1000000

/-- Lines 104–111: decompose a millisecond total into whole hours, minutes,
seconds and milliseconds by successive division/modulo by `1000*60*60`,
`1000*60` and `1000`, each step consuming the previous remainder (Rust
`/` and `%` on `i64` truncate toward zero). -/
def decompose (totalMillis : Int) : Int × Int × Int × Int :=
  let hours := totalMillis.tdiv (1000 * 60 * 60)
  let remainingMillis := totalMillis.tmod (1000 * 60 * 60)
  let minutes := remainingMillis.tdiv (1000 * 60)
  let remainingMillis2 := remainingMillis.tmod (1000 * 60)
  let seconds := remainingMillis2.tdiv 1000
  let milliseconds := remainingMillis2.tmod 1000
  (hours, minutes, seconds, milliseconds)

/-- The whole run of `main` after argument/client setup: paginate, then
aggregate.  `Except.error` is the non-zero-exit path (the propagated error
printed on the diagnostic stream); `Except.ok` is the success path, for
both the sentinel and the statistics outcome. -/
def runMain (parse : String → Option Int) (pages : List ListingPage) :
    Except RunError Report :=
  match listAll parse pages with
  | .error e => .error e
  | .ok ts => .ok (aggregate ts)

/-! ## Concrete test fixtures

A stand-in for the RFC3339 parser and a handful of concrete pages, used to
evaluate the development on closed inputs. -/

/-- A concrete parse function for closed evaluations: `"bad"` is the one
malformed string, every other string parses to its length. -/
def lenParse (s : String) : Option Int :=
  if s = "bad" then none else some (s.length : Int)

/-- A truncated page carrying no continuation token, with one object. -/
def pageTruncNoToken : ListingPage :=
  { contents := some [{ lastModified := some "a" }]
    is_truncated := some true
    next_continuation_token := none }

/-- A truncated page carrying a continuation token, with two objects: one
parseable timestamp and one absent `lastModified`. -/
def pageTruncTok : ListingPage :=
  { contents := some [{ lastModified := some "aa" }, { lastModified := none }]
    is_truncated := some true
    next_continuation_token := some "tok1" }

/-- A final page (`is_truncated = some false`), with one object. -/
def pageFinal : ListingPage :=
  { contents := some [{ lastModified := some "aaaa" }]
    is_truncated := some false
    next_continuation_token := none }

/-- A page whose `is_truncated` field is absent. -/
def pageNoTruncField : ListingPage :=
  { contents := some [{ lastModified := some "aaa" }]
    is_truncated := none
    next_continuation_token := none }

/-- A page containing a malformed timestamp string. -/
def pageBad : ListingPage :=
  { contents := some [{ lastModified := some "bad" }]
    is_truncated := some false
    next_continuation_token := none }

/-! ## Helper lemmas -/

theorem processObjects_ok_of_parses (parse : String → Option Int)
    (objs : List ObjectRecord) (h : objectsParse parse objs = true) :
    processObjects parse objs =
      .ok (objs.filterMap fun o => o.lastModified.bind parse) := by
  induction objs with
  | nil => rfl
  | cons o rest ih =>
    rw [objectsParse, List.all_cons, Bool.and_eq_true] at h
    obtain ⟨ho, hrest⟩ := h
    have ihr := ih hrest
    cases hlm : o.lastModified with
    | none =>
      simp only [processObjects, hlm, List.filterMap_cons, Option.bind]
      exact ihr
    | some s =>
      rw [hlm] at ho
      have ho' : (parse s).isSome = true := ho
      cases hp : parse s with
      | none => rw [hp] at ho'; simp at ho'
      | some t =>
        simp only [processObjects, hlm, hp, ihr, List.filterMap_cons,
          Option.bind, Option.some_bind]

theorem processObjects_error_of_bad (parse : String → Option Int)
    (objs : List ObjectRecord)
    (h : (objs.any fun o =>
      match o.lastModified with
      | none => false
      | some s => (parse s).isNone) = true) :
    ∃ e, processObjects parse objs = .error e := by
  induction objs with
  | nil => simp at h
  | cons o rest ih =>
    rw [List.any_cons, Bool.or_eq_true] at h
    cases hlm : o.lastModified with
    | none =>
      rw [hlm] at h
      simp only [Bool.false_eq_true, false_or] at h
      obtain ⟨e, he⟩ := ih h
      exact ⟨e, by simp only [processObjects, hlm]; exact he⟩
    | some s =>
      rw [hlm] at h
      cases hp : parse s with
      | none => exact ⟨.parseError s, by simp only [processObjects, hlm, hp]⟩
      | some t =>
        rcases h with h1 | h2
        · have h1' : (parse s).isNone = true := h1
          rw [hp] at h1'
          simp at h1'
        · obtain ⟨e, he⟩ := ih h2
          exact ⟨e, by simp only [processObjects, hlm, hp, he]⟩

theorem processPage_ok_of_parses (parse : String → Option Int)
    (p : ListingPage) (h : pageParses parse p = true) :
    processPage parse p = .ok (pageTimestamps parse p) := by
  rw [pageParses] at h
  cases hc : p.contents with
  | none =>
    simp only [processPage, hc, pageTimestamps, Option.getD_none,
      List.filterMap_nil]
  | some objs =>
    rw [hc, Option.getD_some] at h
    simp only [processPage, hc, pageTimestamps, Option.getD_some]
    exact processObjects_ok_of_parses parse objs h

theorem processPage_error_of_bad (parse : String → Option Int)
    (p : ListingPage) (h : pageHasBadTimestamp parse p = true) :
    ∃ e, processPage parse p = .error e := by
  rw [pageHasBadTimestamp] at h
  cases hc : p.contents with
  | none => rw [hc] at h; simp at h
  | some objs =>
    rw [hc, Option.getD_some] at h
    simp only [processPage, hc]
    exact processObjects_error_of_bad parse objs h

theorem listAll_cons_truncated (parse : String → Option Int)
    (p : ListingPage) (rest : List ListingPage)
    (htr : pageTruncated p = true) (hpp : pageParses parse p = true) :
    listAll parse (p :: rest) =
      (listAll parse rest).map fun ts2 => pageTimestamps parse p ++ ts2 := by
  rw [pageTruncated] at htr
  simp only [listAll, processPage_ok_of_parses parse p hpp, htr, if_true]
  cases listAll parse rest with
  | error e => rfl
  | ok ts2 => rfl

theorem listAll_cons_final (parse : String → Option Int)
    (p : ListingPage) (rest : List ListingPage)
    (htr : pageTruncated p = false) (hpp : pageParses parse p = true) :
    listAll parse (p :: rest) = .ok (pageTimestamps parse p) := by
  rw [pageTruncated] at htr
  simp only [listAll, processPage_ok_of_parses parse p hpp, htr,
    Bool.false_eq_true, if_false]

theorem listAll_error_of_page_error (parse : String → Option Int)
    (pre : List ListingPage) (bad : ListingPage) (rest : List ListingPage)
    (hpre : ∀ q ∈ pre, pageTruncated q = true)
    (hbad : pageHasBadTimestamp parse bad = true) :
    ∃ e, listAll parse (pre ++ bad :: rest) = .error e := by
  induction pre with
  | nil =>
    obtain ⟨e, he⟩ := processPage_error_of_bad parse bad hbad
    exact ⟨e, by simp only [List.nil_append, listAll, he]⟩
  | cons q pre' ih =>
    have hq : pageTruncated q = true := hpre q (List.mem_cons_self q _)
    rw [pageTruncated] at hq
    have ih' := ih fun r hr => hpre r (List.mem_cons_of_mem q hr)
    obtain ⟨e, he⟩ := ih'
    simp only [List.cons_append, listAll]
    cases hq' : processPage parse q with
    | error e' => exact ⟨e', rfl⟩
    | ok ts => exact ⟨e, by simp only [hq, if_true, List.append_eq, he]⟩

theorem allTimestamps_cons (parse : String → Option Int) (p : ListingPage)
    (pages : List ListingPage) :
    allTimestamps parse (p :: pages) =
      pageTimestamps parse p ++ allTimestamps parse pages := by
  rw [allTimestamps, allTimestamps, List.flatMap_cons]

theorem lastNotTruncated_cons_cons (p q : ListingPage)
    (rest : List ListingPage) :
    lastNotTruncated (p :: q :: rest) = lastNotTruncated (q :: rest) := by
  rw [lastNotTruncated, lastNotTruncated, List.getLast?_cons_cons]

theorem timeDiffs_length (ts : List Int) :
    (timeDiffs ts).length = ts.length - 1 := by
  rw [timeDiffs, List.length_zipWith, List.length_tail]
  omega

theorem timeDiffs_nonneg (ts : List Int) (h : ts.Sorted (· ≤ ·)) :
    ∀ d ∈ timeDiffs ts, 0 ≤ d := by
  induction ts with
  | nil => intro d hd; simp [timeDiffs] at hd
  | cons a rest ih =>
    cases rest with
    | nil => intro d hd; simp [timeDiffs] at hd
    | cons b t =>
      rw [List.sorted_cons] at h
      obtain ⟨hab, hrest⟩ := h
      intro d hd
      rw [timeDiffs, List.tail_cons, List.zipWith_cons_cons] at hd
      rcases List.mem_cons.mp hd with h1 | h2
      · have : a ≤ b := hab b (List.mem_cons_self b t)
        omega
      · exact ih hrest d h2

theorem foldl_add_nonneg (ds : List Int) (acc : Int) (hacc : 0 ≤ acc)
    (h : ∀ d ∈ ds, 0 ≤ d) : 0 ≤ ds.foldl (· + ·) acc := by
  induction ds generalizing acc with
  | nil => simpa using hacc
  | cons d rest ih =>
    rw [List.foldl_cons]
    have hd : 0 ≤ d := h d (List.mem_cons_self d rest)
    exact ih (acc + d) (by omega) fun x hx => h x (List.mem_cons_of_mem d hx)

theorem totalDuration_nonneg (ds : List Int) (h : ∀ d ∈ ds, 0 ≤ d) :
    0 ≤ totalDuration ds :=
  foldl_add_nonneg ds 0 le_rfl h

theorem sortTimestamps_sorted (ts : List Int) :
    (sortTimestamps ts).Sorted (· ≤ ·) :=
  List.sorted_insertionSort (· ≤ ·) ts

theorem sortTimestamps_perm (ts : List Int) :
    (sortTimestamps ts).Perm ts :=
  List.perm_insertionSort (· ≤ ·) ts

theorem sortTimestamps_eq_of_perm (ts₁ ts₂ : List Int) (h : ts₁.Perm ts₂) :
    sortTimestamps ts₁ = sortTimestamps ts₂ :=
  List.eq_of_perm_of_sorted
    ((sortTimestamps_perm ts₁).trans (h.trans (sortTimestamps_perm ts₂).symm))
    (sortTimestamps_sorted ts₁) (sortTimestamps_sorted ts₂)

theorem sortTimestamps_length (ts : List Int) :
    (sortTimestamps ts).length = ts.length :=
  (sortTimestamps_perm ts).length_eq

theorem i32OfUsize_of_lt (n : Nat) (h : n < 2147483648) :
    i32OfUsize n = (n : Int) := by
  rw [i32OfUsize]
  have h1 : n % 4294967296 = n := Nat.mod_eq_of_lt (by omega)
  rw [h1, if_pos h]

theorem sorted_replicate (n : Nat) (v : Int) :
    List.Sorted (· ≤ ·) (List.replicate n v) := by
  induction n with
  | zero => exact List.sorted_nil
  | succ m ih =>
    rw [List.replicate_succ, List.sorted_cons]
    exact ⟨fun b hb => le_of_eq (List.eq_of_mem_replicate hb).symm, ih⟩

theorem sorted_cons_replicate (a v : Int) (h : a ≤ v) (n : Nat) :
    List.Sorted (· ≤ ·) (a :: List.replicate n v) := by
  rw [List.sorted_cons]
  refine ⟨fun b hb => ?_, sorted_replicate n v⟩
  rw [List.eq_of_mem_replicate hb]
  exact h

theorem timeDiffs_cons_replicate (a v : Int) (m : Nat) :
    timeDiffs (a :: List.replicate (m + 1) v) =
      (v - a) :: List.replicate m 0 := by
  induction m generalizing a with
  | zero => rfl
  | succ k ih =>
    rw [show List.replicate (k + 1 + 1) v = v :: List.replicate (k + 1) v
      from List.replicate_succ ..]
    have step : timeDiffs (a :: v :: List.replicate (k + 1) v) =
        (v - a) :: timeDiffs (v :: List.replicate (k + 1) v) := by
      rw [timeDiffs, timeDiffs, List.tail_cons, List.tail_cons,
        List.zipWith_cons_cons]
    rw [step, ih v, sub_self, List.replicate_succ]

theorem foldl_add_replicate_zero (m : Nat) (acc : Int) :
    (List.replicate m (0 : Int)).foldl (· + ·) acc = acc := by
  induction m generalizing acc with
  | zero => rfl
  | succ k ih =>
    rw [List.replicate_succ, List.foldl_cons, add_zero]
    exact ih acc

/-! ## Claims -/

/-- C1: for every finite sequence of pages returned by the Listing Service
in which every page but the last is truncated and carries a cursor, the
last page is not truncated, and every present `lastModified` string parses,
the pagination loop collects exactly the concatenation of all pages'
parseable timestamps — each such timestamp contributed exactly once, none
dropped or duplicated across page boundaries. -/
theorem listAll_collects_all_timestamps (parse : String → Option Int)
    (pages : List ListingPage)
    (htrunc : (pages.dropLast.all fun p =>
      pageTruncated p && p.next_continuation_token.isSome) = true)
    (hlast : lastNotTruncated pages = true)
    (hparse : (pages.all (pageParses parse)) = true) :
    listAll parse pages = .ok (allTimestamps parse pages) := by
  induction pages with
  | nil => rfl
  | cons p rest ih =>
    rw [List.all_cons, Bool.and_eq_true] at hparse
    obtain ⟨hpp, hparse'⟩ := hparse
    cases rest with
    | nil =>
      rw [lastNotTruncated, List.getLast?_singleton] at hlast
      have hlast' : (! pageTruncated p) = true := hlast
      have hfin : pageTruncated p = false := by
        cases hpt : pageTruncated p with
        | false => rfl
        | true => rw [hpt] at hlast'; simp at hlast'
      rw [listAll_cons_final parse p [] hfin hpp, allTimestamps_cons]
      rw [allTimestamps, List.flatMap_nil, List.append_nil]
    | cons q rest' =>
      rw [List.dropLast_cons₂, List.all_cons, Bool.and_eq_true,
        Bool.and_eq_true] at htrunc
      obtain ⟨⟨htr, _⟩, htrunc'⟩ := htrunc
      rw [lastNotTruncated_cons_cons] at hlast
      have ihr := ih htrunc' hlast hparse'
      rw [listAll_cons_truncated parse p (q :: rest') htr hpp, ihr,
        allTimestamps_cons]
      rfl

/-- C1 witness: a two-page run (first page truncated with a cursor, one of
its objects lacking `lastModified`; second page final) collects exactly the
parseable timestamps of both pages. -/
theorem listAll_collects_all_timestamps_witness :
    listAll lenParse [pageTruncTok, pageFinal] =
      .ok (allTimestamps lenParse [pageTruncTok, pageFinal]) :=
  listAll_collects_all_timestamps lenParse [pageTruncTok, pageFinal]
    (by decide) (by decide) (by decide)

/-- C2 counterexample: a concrete run whose first page has
`isTruncated = true` and an absent `nextContinuationToken` does not fail —
the loop keeps paginating, collects both pages' timestamps, and the run
ends in the success path with a numeric result (exit status zero), contrary
to the claimed protocol-violation failure. -/
theorem truncated_without_token_no_failure :
    pageTruncated pageTruncNoToken = true ∧
    pageTruncNoToken.next_continuation_token = none ∧
    listAll lenParse [pageTruncNoToken, pageFinal] = .ok [1, 4] ∧
    runMain lenParse [pageTruncNoToken, pageFinal] =
      .ok (.stats ⟨3, 3, 1⟩) :=
  ⟨rfl, rfl, rfl, rfl⟩

/-- C2 amended: for every page response with `isTruncated = true` and an
absent `nextContinuationToken` (whose present timestamps parse), the loop
does not fail: it continues pagination with an absent continuation token,
prepending the page's timestamps to whatever the remaining pages yield. -/
theorem truncated_without_token_continues (parse : String → Option Int)
    (p : ListingPage) (rest : List ListingPage)
    (htr : pageTruncated p = true)
    (htok : p.next_continuation_token = none)
    (hpp : pageParses parse p = true) :
    listAll parse (p :: rest) =
      (listAll parse rest).map fun ts2 => pageTimestamps parse p ++ ts2 :=
  listAll_cons_truncated parse p rest htr hpp

/-- C2 amended witness: the amended behaviour evaluated on the concrete
truncated-without-token page. -/
theorem truncated_without_token_continues_witness :
    listAll lenParse [pageTruncNoToken, pageFinal] =
      (listAll lenParse [pageFinal]).map
        fun ts2 => pageTimestamps lenParse pageTruncNoToken ++ ts2 :=
  truncated_without_token_continues lenParse pageTruncNoToken [pageFinal]
    (by decide) (by decide) (by decide)

/-- C3: whenever the page sequence reaches a page containing a malformed
`lastModified` string (all pages before it being truncated, so the loop
reaches it), the entire run aborts with an error: no timestamp list is
produced and no report (neither sentinel nor statistics) is printed,
regardless of which page holds the malformed string or where on the page
it sits. -/
theorem parse_failure_aborts_run (parse : String → Option Int)
    (pre : List ListingPage) (bad : ListingPage) (rest : List ListingPage)
    (hpre : (pre.all pageTruncated) = true)
    (hbad : pageHasBadTimestamp parse bad = true) :
    ∃ e, listAll parse (pre ++ bad :: rest) = .error e ∧
      runMain parse (pre ++ bad :: rest) = .error e := by
  have hpre' : ∀ q ∈ pre, pageTruncated q = true :=
    fun q hq => List.all_eq_true.mp hpre q hq
  obtain ⟨e, he⟩ := listAll_error_of_page_error parse pre bad rest hpre' hbad
  exact ⟨e, he, by rw [runMain, he]⟩

/-- C3 witness: a run whose middle page (after a truncated page, before a
further page) carries the malformed string `"bad"` aborts with an error. -/
theorem parse_failure_aborts_run_witness :
    ∃ e, listAll lenParse ([pageTruncTok] ++ pageBad :: [pageFinal]) =
        .error e ∧
      runMain lenParse ([pageTruncTok] ++ pageBad :: [pageFinal]) =
        .error e :=
  parse_failure_aborts_run lenParse [pageTruncTok] pageBad [pageFinal]
    (by decide) (by decide)

/-- C4: whenever the collected timestamp list has fewer than two entries,
the run ends on the success path with the insufficient-data sentinel and
never with a numeric statistics result. -/
theorem insufficient_data_yields_sentinel (parse : String → Option Int)
    (pages : List ListingPage) (ts : List Int)
    (hok : listAll parse pages = .ok ts) (hlen : ts.length < 2) :
    runMain parse pages = .ok Report.insufficient ∧
      ∀ r, runMain parse pages ≠ .ok (.stats r) := by
  have hmain : runMain parse pages = .ok (aggregate ts) := by
    rw [runMain, hok]
  rw [aggregate, if_pos hlen] at hmain
  refine ⟨hmain, ?_⟩
  intro r hr
  rw [hmain] at hr
  simp at hr

/-- C4 witness: a single final page with one object yields one timestamp,
hence the sentinel outcome. -/
theorem insufficient_data_yields_sentinel_witness :
    runMain lenParse [pageFinal] = .ok Report.insufficient ∧
      ∀ r, runMain lenParse [pageFinal] ≠ .ok (.stats r) :=
  insufficient_data_yields_sentinel lenParse [pageFinal] [4] rfl (by decide)

/-- C5: the aggregation is order-independent — two timestamp lists that are
permutations of each other (the same multiset) produce identical reports:
the same total, average and interval count (and the same
insufficient-data outcome below two entries). -/
theorem aggregate_perm_invariant (ts₁ ts₂ : List Int) (h : ts₁.Perm ts₂) :
    aggregate ts₁ = aggregate ts₂ := by
  simp only [aggregate, h.length_eq, sortTimestamps_eq_of_perm ts₁ ts₂ h]

/-- C5 witness: a shuffled three-element list aggregates identically to its
sorted arrangement. -/
theorem aggregate_perm_invariant_witness :
    aggregate [30, 0, 10] = aggregate [0, 10, 30] :=
  aggregate_perm_invariant [30, 0, 10] [0, 10, 30] (by decide)

theorem tdiv_remainder_bounds (total c : Int) (h0 : 0 ≤ total)
    (hc : 0 < c) :
    0 ≤ total - total.tdiv c * c ∧ total - total.tdiv c * c ≤ c - 1 := by
  have key := Int.tdiv_add_tmod total c
  have heq : total - total.tdiv c * c = total.tmod c := by
    linear_combination -key
  constructor
  · rw [heq]; exact Int.tmod_nonneg c h0
  · rw [heq]
    have := Int.tmod_lt_of_pos total hc
    omega

/-- C6 counterexample: the claimed identity fails as stated, because the
average's divisor is `time_diffs.len() as i32` (main.rs:101), a wrapping
cast.  At the concrete input `0` followed by `2^31` copies of `2^31`
(so `2^31 + 1` timestamps, `2^31` intervals, total `2^31`), the cast
divisor is `-2^31`, the average comes out `-1`, and
`total - average * count = 2^32` exceeds `count - 1 = 2^31 - 1`. -/
theorem average_identity_fails_at_wrap :
    2 ≤ ((0 : Int) :: List.replicate 2147483648 (2147483648 : Int)).length ∧
    ∃ r, aggregate ((0 : Int) :: List.replicate 2147483648 (2147483648 : Int)) =
        .stats r ∧
      ¬ (r.total - r.average * (r.count : Int) ≤ (r.count : Int) - 1) := by
  have hlen :
      ((0 : Int) :: List.replicate 2147483648 (2147483648 : Int)).length =
        2147483649 := by
    rw [List.length_cons, List.length_replicate]
  refine ⟨by rw [hlen]; norm_num, ⟨-1, 2147483648, 2147483648⟩, ?_, ?_⟩
  · have hnot :
        ¬ ((0 : Int) :: List.replicate 2147483648 (2147483648 : Int)).length
          < 2 := by
      rw [hlen]; norm_num
    have hsort :
        sortTimestamps
            ((0 : Int) :: List.replicate 2147483648 (2147483648 : Int)) =
          (0 : Int) :: List.replicate 2147483648 (2147483648 : Int) :=
      List.eq_of_perm_of_sorted (sortTimestamps_perm _)
        (sortTimestamps_sorted _)
        (sorted_cons_replicate 0 2147483648 (by norm_num) 2147483648)
    have hdiffs :
        timeDiffs ((0 : Int) :: List.replicate 2147483648 (2147483648 : Int)) =
          (2147483648 : Int) :: List.replicate 2147483647 0 := by
      rw [show (2147483648 : Nat) = 2147483647 + 1 from by norm_num,
        timeDiffs_cons_replicate, sub_zero]
    have htot :
        totalDuration ((2147483648 : Int) :: List.replicate 2147483647 0) =
          2147483648 := by
      rw [totalDuration, List.foldl_cons, foldl_add_replicate_zero, zero_add]
    have hcnt :
        ((2147483648 : Int) :: List.replicate 2147483647 (0 : Int)).length =
          2147483648 := by
      rw [List.length_cons, List.length_replicate]
    have hdiv : i32OfUsize 2147483648 = -2147483648 := by decide
    have htdiv : (2147483648 : Int).tdiv (-2147483648) = -1 := by decide
    simp only [aggregate]
    rw [if_neg hnot, hsort, hdiffs, htot, hcnt, hdiv, htdiv]
  · show ¬ ((2147483648 : Int) - (-1) * ((2147483648 : Nat) : Int) ≤
      ((2147483648 : Nat) : Int) - 1)
    push_cast
    norm_num

/-- C6 amended: for at least two and at most `2^31` timestamps — so the
interval count fits in `i32` and the wrapping cast of main.rs:101 is the
identity — the computed average satisfies `average * count == total` up to
integer truncation: the defect `total - average * count` is non-negative
and at most `count - 1` sub-millisecond units. -/
theorem average_identity (ts : List Int) (h : 2 ≤ ts.length)
    (hsmall : ts.length ≤ 2147483648) :
    ∃ r, aggregate ts = .stats r ∧
      0 ≤ r.total - r.average * (r.count : Int) ∧
      r.total - r.average * (r.count : Int) ≤ (r.count : Int) - 1 := by
  have hnot : ¬ ts.length < 2 := by omega
  have hlen : (timeDiffs (sortTimestamps ts)).length = ts.length - 1 := by
    rw [timeDiffs_length, sortTimestamps_length]
  have h0 : 0 ≤ totalDuration (timeDiffs (sortTimestamps ts)) :=
    totalDuration_nonneg _ (timeDiffs_nonneg _ (sortTimestamps_sorted ts))
  have hc : 0 < (((timeDiffs (sortTimestamps ts)).length : Nat) : Int) := by
    rw [hlen]; omega
  have hcast : i32OfUsize ((timeDiffs (sortTimestamps ts)).length) =
      (((timeDiffs (sortTimestamps ts)).length : Nat) : Int) :=
    i32OfUsize_of_lt _ (by omega)
  obtain ⟨h1, h2⟩ := tdiv_remainder_bounds
    (totalDuration (timeDiffs (sortTimestamps ts)))
    (((timeDiffs (sortTimestamps ts)).length : Nat) : Int) h0 hc
  have h1' : 0 ≤ totalDuration (timeDiffs (sortTimestamps ts)) -
      (totalDuration (timeDiffs (sortTimestamps ts))).tdiv
        (i32OfUsize ((timeDiffs (sortTimestamps ts)).length)) *
      (((timeDiffs (sortTimestamps ts)).length : Nat) : Int) := by
    rw [hcast]; exact h1
  have h2' : totalDuration (timeDiffs (sortTimestamps ts)) -
      (totalDuration (timeDiffs (sortTimestamps ts))).tdiv
        (i32OfUsize ((timeDiffs (sortTimestamps ts)).length)) *
      (((timeDiffs (sortTimestamps ts)).length : Nat) : Int) ≤
      (((timeDiffs (sortTimestamps ts)).length : Nat) : Int) - 1 := by
    rw [hcast]; exact h2
  exact ⟨⟨(totalDuration (timeDiffs (sortTimestamps ts))).tdiv
      (i32OfUsize ((timeDiffs (sortTimestamps ts)).length)),
    totalDuration (timeDiffs (sortTimestamps ts)),
    (timeDiffs (sortTimestamps ts)).length⟩,
    by rw [aggregate, if_neg hnot], h1', h2'⟩

/-- C6 amended witness: the average identity evaluated on three concrete
timestamps with intervals `10` and `20` (interval count well below
`2^31`). -/
theorem average_identity_witness :
    ∃ r, aggregate [0, 10, 30] = .stats r ∧
      0 ≤ r.total - r.average * (r.count : Int) ∧
      r.total - r.average * (r.count : Int) ≤ (r.count : Int) - 1 :=
  average_identity [0, 10, 30] (by decide) (by norm_num)

/-- C7: the display decomposition of a (non-negative) millisecond total
into whole hours, minutes, seconds and milliseconds — successive truncating
division/modulo by 3600000, 60000 and 1000, each step consuming the
previous remainder — reconstructs the total exactly:
`hours*3600000 + minutes*60000 + seconds*1000 + milliseconds = total`, with
`0 ≤ minutes < 60`, `0 ≤ seconds < 60` and `0 ≤ milliseconds < 1000`. -/
theorem decompose_reconstructs_total (m hrs mins secs ms : Int)
    (hm : 0 ≤ m) (hd : decompose m = (hrs, mins, secs, ms)) :
    hrs * 3600000 + mins * 60000 + secs * 1000 + ms = m ∧
    0 ≤ mins ∧ mins < 60 ∧ 0 ≤ secs ∧ secs < 60 ∧ 0 ≤ ms ∧ ms < 1000 := by
  have hd' : (m.tdiv 3600000, (m.tmod 3600000).tdiv 60000,
      ((m.tmod 3600000).tmod 60000).tdiv 1000,
      ((m.tmod 3600000).tmod 60000).tmod 1000) = (hrs, mins, secs, ms) := by
    rw [← hd]; rfl
  rw [Prod.mk.injEq, Prod.mk.injEq, Prod.mk.injEq] at hd'
  obtain ⟨h1, h2, h3, h4⟩ := hd'
  have e1 : m.tdiv 3600000 = m / 3600000 := Int.tdiv_eq_ediv hm (by norm_num)
  have e2 : m.tmod 3600000 = m % 3600000 := Int.tmod_eq_emod hm (by norm_num)
  have hr1 : 0 ≤ m % 3600000 := Int.emod_nonneg m (by norm_num)
  have e3 : (m.tmod 3600000).tdiv 60000 = (m % 3600000) / 60000 := by
    rw [e2]; exact Int.tdiv_eq_ediv hr1 (by norm_num)
  have e4 : (m.tmod 3600000).tmod 60000 = (m % 3600000) % 60000 := by
    rw [e2]; exact Int.tmod_eq_emod hr1 (by norm_num)
  have hr2 : 0 ≤ (m % 3600000) % 60000 := Int.emod_nonneg _ (by norm_num)
  have e5 : ((m.tmod 3600000).tmod 60000).tdiv 1000 =
      ((m % 3600000) % 60000) / 1000 := by
    rw [e4]; exact Int.tdiv_eq_ediv hr2 (by norm_num)
  have e6 : ((m.tmod 3600000).tmod 60000).tmod 1000 =
      ((m % 3600000) % 60000) % 1000 := by
    rw [e4]; exact Int.tmod_eq_emod hr2 (by norm_num)
  rw [e1] at h1
  rw [e3] at h2
  rw [e5] at h3
  rw [e6] at h4
  subst h1 h2 h3 h4
  omega

/-- C7 witness: `3661001 ms` decomposes as `1h 1m 1s 1ms`, which
reconstructs the total. -/
theorem decompose_reconstructs_total_witness :
    (1 : Int) * 3600000 + 1 * 60000 + 1 * 1000 + 1 = 3661001 ∧
    (0 : Int) ≤ 1 ∧ (1 : Int) < 60 ∧ (0 : Int) ≤ 1 ∧ (1 : Int) < 60 ∧
    (0 : Int) ≤ 1 ∧ (1 : Int) < 1000 :=
  decompose_reconstructs_total 3661001 1 1 1 1 (by norm_num) rfl

/-- C9: a record whose `lastModified` field is absent is silently skipped
by the object loop — removing such a record from anywhere in a page's
record list does not change the outcome, so it contributes no timestamp
and raises no error, while present timestamps around it are still
collected. -/
theorem absent_lastModified_skipped (parse : String → Option Int)
    (objs₁ objs₂ : List ObjectRecord) (o : ObjectRecord)
    (ho : o.lastModified = none) :
    processObjects parse (objs₁ ++ o :: objs₂) =
      processObjects parse (objs₁ ++ objs₂) := by
  induction objs₁ with
  | nil =>
    rw [List.nil_append, List.nil_append]
    simp only [processObjects, ho]
  | cons a rest ih =>
    simp only [List.cons_append]
    cases hlm : a.lastModified with
    | none => simp only [processObjects, hlm]; exact ih
    | some s =>
      cases hp : parse s with
      | none => simp only [processObjects, hlm, hp]
      | some t => simp only [processObjects, hlm, hp, ih]

/-- C9 witness: dropping a no-`lastModified` record between two parseable
records leaves the processed page unchanged. -/
theorem absent_lastModified_skipped_witness :
    processObjects lenParse
        ([{ lastModified := some "aa" }] ++
          { lastModified := none } :: [{ lastModified := some "a" }]) =
      processObjects lenParse
        ([{ lastModified := some "aa" }] ++ [{ lastModified := some "a" }]) :=
  absent_lastModified_skipped lenParse [{ lastModified := some "aa" }]
    [{ lastModified := some "a" }] { lastModified := none } rfl

/-- C10: a page whose `isTruncated` field is absent is treated as not
truncated (`unwrap_or(false)`): pagination terminates at that page without
error, returning exactly the timestamps collected up to and including it
and never consuming any later response. -/
theorem absent_truncation_ends_pagination (parse : String → Option Int)
    (pre : List ListingPage) (p : ListingPage) (rest : List ListingPage)
    (hpre : (pre.all fun q => pageTruncated q && pageParses parse q) = true)
    (hp : p.is_truncated = none)
    (hpp : pageParses parse p = true) :
    listAll parse (pre ++ p :: rest) =
      .ok (allTimestamps parse (pre ++ [p])) := by
  induction pre with
  | nil =>
    have hfin : pageTruncated p = false := by rw [pageTruncated, hp]; rfl
    rw [List.nil_append, List.nil_append,
      listAll_cons_final parse p rest hfin hpp, allTimestamps_cons]
    rw [allTimestamps, List.flatMap_nil, List.append_nil]
  | cons q pre' ih =>
    rw [List.all_cons, Bool.and_eq_true, Bool.and_eq_true] at hpre
    obtain ⟨⟨hqt, hqp⟩, hpre'⟩ := hpre
    have ihr := ih hpre'
    simp only [List.cons_append]
    rw [listAll_cons_truncated parse q _ hqt hqp, ihr, allTimestamps_cons]
    rfl

/-- C10 witness: a run whose second page lacks the `isTruncated` field
stops there — the third page (which would abort with a parse error were it
reached) is never consumed, and both consumed pages' timestamps are
returned. -/
theorem absent_truncation_ends_pagination_witness :
    listAll lenParse ([pageTruncTok] ++ pageNoTruncField :: [pageBad]) =
      .ok (allTimestamps lenParse ([pageTruncTok] ++ [pageNoTruncField])) :=
  absent_truncation_ends_pagination lenParse [pageTruncTok] pageNoTruncField
    [pageBad] (by decide) rfl (by decide)

end TpCounter
